import Mathlib

/-!
Shallow embedding of `src/thread.c` from libimobiledevice-glue: a
platform-neutral facade over native threading primitives (threads,
mutexes, once-guards, condition variables).

The C file selects one of two implementations per function at build time
(`#ifdef _WIN32` versus POSIX).  Each platform path is embedded as its own
Lean definition, suffixed `_win` or `_posix`.  OS primitives
(`CreateThread`, `pthread_create`, `WaitForSingleObject`,
`pthread_cond_timedwait`, ...) are not code of this repository; their
outcomes are passed in as explicit arguments (oracles), so a definition
consumes exactly the OS results the C code consumes, in the order the C
code consumes them.  Machine integers are modelled as `Nat`/`Int` with
exact arithmetic; the status codes involved are small, so no wrap-around
is reachable on any supported platform width for the quantities proved
about here.

The Windows fallback of `thread_once` (an interlocked spin lock guarding a
state flag) is the one nontrivial concurrent algorithm implemented by the
repository itself; it is embedded as a small-step interleaving machine
over explicit program counters, with an arbitrary schedule chosen by a
list of thread indices.
-/

namespace ThreadC

/-- Windows `WAIT_OBJECT_0` constant (winbase.h). -/
def WAIT_OBJECT_0 : Nat := 0

/-- Windows `WAIT_TIMEOUT` constant, 0x102 (winerror.h). -/
def WAIT_TIMEOUT : Nat := 258

/-- POSIX `ETIMEDOUT` errno value (110 on Linux; nonzero on every POSIX
platform), the status `pthread_cond_timedwait` returns when the absolute
deadline passes without a signal. -/
def ETIMEDOUT : Int := 110

/-- `thread_new`, Windows path (thread.c lines 33-39).  `osCreateThread n`
is the handle returned by the n-th call to `CreateThread` (`none` models a
NULL return); the code performs a single call, so only `osCreateThread 0`
is consulted.  Result: the returned status and the value stored into
`*thread` (`none` when the code does not write `*thread`). -/
def thread_new_win (osCreateThread : Nat → Option Nat) : Int × Option Nat :=
  match osCreateThread 0 with
  | none => (-1, none)
  | some th => (0, some th)

/-- `thread_new`, POSIX path (thread.c lines 41-42).  `osPthreadCreate n`
models the n-th call to `pthread_create`: `.ok h` means it started the
thread, stored handle `h` into `*thread` and returned 0; `.error e` means
it failed with status `e` and left `*thread` alone.  The code performs a
single call and returns its status directly.  Result: the returned status
and the value stored into `*thread` (`none` when nothing was stored). -/
def thread_new_posix (osPthreadCreate : Nat → Except Int Nat) : Int × Option Nat :=
  match osPthreadCreate 0 with
  | .ok th => (0, some th)
  | .error e => (e, none)

/-- `thread_alive` (thread.c lines 72-81).  The handle is the raw
`THREAD_T` value, with 0 modelling NULL (the C code tests `!thread`).
`osWaitSingle h` is the `DWORD` result of `WaitForSingleObject(h, 0)` on
the Windows path; `osKill h` is the result of `pthread_kill(h, 0)` on the
POSIX path.  `isWin` selects the build-time platform.  The second
component records whether any OS primitive was invoked. -/
def thread_alive (isWin : Bool) (thread : Nat)
    (osWaitSingle : Nat → Nat) (osKill : Nat → Int) : Bool × Bool :=
  if thread = 0 then
    (false, false)
  else if isWin then
    (osWaitSingle thread = WAIT_TIMEOUT, true)
  else
    (osKill thread = 0, true)

/-- `thread_cancel` (thread.c lines 83-94).  `havePthreadCancel` reflects
the build-time `HAVE_PTHREAD_CANCEL` flag; `osPthreadCancel` models the
result of `pthread_cancel(thread)` on the supported path.  The second
component records whether any OS primitive was invoked. -/
def thread_cancel (isWin havePthreadCancel : Bool) (osPthreadCancel : Int) :
    Int × Bool :=
  if isWin then
    (-1, false)
  else if havePthreadCancel then
    (osPthreadCancel, true)
  else
    (-1, false)

/-- The Windows emulation of a condition variable: a counting semaphore
(thread.c line 151 creates it with initial count 0).  `sem` is the current
permit count. -/
structure CondWin where
  sem : Nat
deriving DecidableEq, Repr

/-- `cond_signal`, Windows path (thread.c lines 168-173).  `releaseOk`
models whether `ReleaseSemaphore(cond->sem, 1, NULL)` succeeded; on
success the OS adds exactly one permit to the semaphore.  Result: the
returned status and the semaphore state afterwards. -/
def cond_signal_win (releaseOk : Bool) (cond : CondWin) : Int × CondWin :=
  if releaseOk then
    (0, ⟨cond.sem + 1⟩)
  else
    (-1, cond)

/-- `cond_signal`, POSIX path (thread.c line 175): the status of
`pthread_cond_signal(cond)` is returned unchanged. -/
def cond_signal_posix (osCondSignal : Int) : Int :=
  osCondSignal

/-- `cond_wait`, Windows path (thread.c lines 181-189).  The mutex is
modelled by its held/free flag; the code calls `mutex_unlock(mutex)`, then
blocks on the semaphore (`osWaitSem` is the `DWORD` result of
`WaitForSingleObject(cond->sem, INFINITE)`), then returns.  Result: the
returned status and the state of the mutex at return. -/
def cond_wait_win (osWaitSem : Nat) (_mutexHeld : Bool) : Int × Bool :=
  let mutexAfterUnlock := false
  if osWaitSem = WAIT_OBJECT_0 then
    (0, mutexAfterUnlock)
  else
    (-1, mutexAfterUnlock)

/-- `cond_wait`, POSIX path (thread.c line 191): delegates to
`pthread_cond_wait(cond, mutex)`, whose status is returned unchanged; the
native primitive reacquires the mutex before returning, so the mutex is
held at return. -/
def cond_wait_posix (osCondWait : Int) (_mutexHeld : Bool) : Int × Bool :=
  (osCondWait, true)

/-- The absolute-deadline computation of `cond_wait_timeout`, POSIX path
(thread.c lines 212-215): seconds/nanoseconds of `ts` computed from
`gettimeofday`'s seconds/microseconds and the relative `timeout_ms`. -/
def timespec_deadline (now_sec now_usec timeout_ms : Nat) : Nat × Nat :=
  let ts_sec := now_sec + timeout_ms / 1000
  let ts_nsec := now_usec * 1000 + 1000 * 1000 * (timeout_ms % 1000)
  (ts_sec + ts_nsec / (1000 * 1000 * 1000), ts_nsec % (1000 * 1000 * 1000))

/-- `cond_wait_timeout`, POSIX path (thread.c lines 208-217): computes the
absolute deadline from the current time and `timeout_ms`, then returns the
status of `pthread_cond_timedwait(cond, mutex, &ts)` unchanged.
`osTimedwait s n` models that status for deadline `(s, n)`; on a pure
timeout it is `ETIMEDOUT`. -/
def cond_wait_timeout_posix (now_sec now_usec timeout_ms : Nat)
    (osTimedwait : Nat → Nat → Int) : Int :=
  let ts := timespec_deadline now_sec now_usec timeout_ms
  osTimedwait ts.1 ts.2

/-- `cond_wait_timeout`, Windows path (thread.c lines 198-206): unlocks
the mutex, waits on the semaphore with the relative timeout (`osWaitSem`
is the `DWORD` result), and maps both `WAIT_OBJECT_0` and `WAIT_TIMEOUT`
to 0, anything else to -1.  Result: status and mutex state at return. -/
def cond_wait_timeout_win (osWaitSem : Nat) (_mutexHeld : Bool) : Int × Bool :=
  let mutexAfterUnlock := false
  if osWaitSem = WAIT_OBJECT_0 ∨ osWaitSem = WAIT_TIMEOUT then
    (0, mutexAfterUnlock)
  else
    (-1, mutexAfterUnlock)

/-! ### The `thread_once` Windows fallback (thread.c lines 134-142)

```c
while (InterlockedExchange(&(once_control->lock), 1) != 0) { Sleep(1); }
if (!once_control->state) {
    once_control->state = 1;
    init_routine();
}
InterlockedExchange(&(once_control->lock), 0);
```

Each calling thread is reduced to a program counter.  `InterlockedExchange`
is atomic, so testing-and-setting `lock` is one step; the statements inside
the critical section become one step each.  The initializer increments a
counter, so `counter` both counts its executions and (being bumped exactly
when the initializer returns) records that it has returned. -/

/-- Program counter of one thread executing the `thread_once` fallback:
`entry` = at the `InterlockedExchange` acquire loop; `locked` = acquired
the lock, about to test `state`; `runInit` = has set `state = 1`, about to
execute `init_routine()`; `unlock` = about to release the lock; `done` =
returned from `thread_once`. -/
inductive Pc where
  | entry
  | locked
  | runInit
  | unlock
  | done
deriving DecidableEq, Repr

/-- Shared state of the fallback once-guard plus the counter bumped by the
initializer and the program counter of each of the competing threads.
`lock` and `state` are the two fields of `thread_once_t` (both 0 at static
initialization). -/
structure OnceState where
  lock : Bool
  state : Bool
  counter : Nat
  pcs : List Pc
deriving DecidableEq, Repr

/-- Initial state for `K` threads racing `thread_once` on a once-guard in
the not-yet-run state, with an initializer that increments `counter`. -/
def onceInit (K : Nat) : OnceState :=
  ⟨false, false, 0, List.replicate K Pc.entry⟩

/-- One atomic step of thread `i` in the fallback.  At `entry`, the
`InterlockedExchange(&lock, 1)` either reads 1 (lock held: the thread
sleeps and retries, i.e. stays at `entry` with nothing changed) or reads 0
and has set `lock`.  At `locked`, the `if (!state)` test either skips to
the release or sets `state = 1` and proceeds to the initializer.  At
`runInit`, `init_routine()` runs (the counter increments as it returns).
At `unlock`, `InterlockedExchange(&lock, 0)` clears the lock.  An index
with no thread, or a finished thread, changes nothing. -/
def onceStep (s : OnceState) (i : Nat) : OnceState :=
  match s.pcs[i]? with
  | none => s
  | some Pc.entry =>
      if s.lock then s
      else { s with lock := true, pcs := s.pcs.set i Pc.locked }
  | some Pc.locked =>
      if s.state then { s with pcs := s.pcs.set i Pc.unlock }
      else { s with state := true, pcs := s.pcs.set i Pc.runInit }
  | some Pc.runInit =>
      { s with counter := s.counter + 1, pcs := s.pcs.set i Pc.unlock }
  | some Pc.unlock =>
      { s with lock := false, pcs := s.pcs.set i Pc.done }
  | some Pc.done => s

/-- Run the fallback under an arbitrary interleaving: `sched` lists, in
order, which thread takes the next atomic step. -/
def onceRun (s : OnceState) (sched : List Nat) : OnceState :=
  match sched with
  | [] => s
  | i :: rest => onceRun (onceStep s i) rest

/-- A program counter inside the critical section (holding the lock). -/
def inCS (p : Pc) : Prop :=
  p = Pc.locked ∨ p = Pc.runInit ∨ p = Pc.unlock

instance (p : Pc) : Decidable (inCS p) := by
  unfold inCS; infer_instance

/-- The inductive invariant of the fallback machine: the initializer has
run at most once; at most one thread holds the lock, and the lock bit is
set whenever one does; the `state` flag is set exactly when the
initializer has returned or is about to run; a thread about to run the
initializer found it not yet run; and a thread past the initializer point
can only be there once the initializer has returned. -/
def OnceInv (s : OnceState) : Prop :=
  s.counter ≤ 1 ∧
  (∀ (i j : Nat) (p q : Pc), i ≠ j → s.pcs[i]? = some p → s.pcs[j]? = some q →
    inCS p → inCS q → False) ∧
  (∀ (i : Nat) (p : Pc), s.pcs[i]? = some p → inCS p → s.lock = true) ∧
  (s.state = true ↔ (s.counter = 1 ∨ ∃ i : Nat, s.pcs[i]? = some Pc.runInit)) ∧
  (∀ i : Nat, s.pcs[i]? = some Pc.runInit → s.counter = 0) ∧
  (∀ (i : Nat) (p : Pc), s.pcs[i]? = some p → p = Pc.unlock ∨ p = Pc.done →
    s.counter = 1)

lemma lt_of_getElem?_some {α : Type} {l : List α} {i : Nat} {a : α}
    (h : l[i]? = some a) : i < l.length := by
  by_contra hn
  rw [List.getElem?_eq_none (Nat.le_of_not_lt hn)] at h
  exact Option.noConfusion h

lemma set_getElem? {α : Type} (l : List α) (i : Nat) (v : α) (j : Nat)
    (hi : i < l.length) :
    (l.set i v)[j]? = if j = i then some v else l[j]? := by
  by_cases hji : j = i
  · subst hji
    simp [List.getElem?_set_eq_of_lt v hi]
  · simp [hji, List.getElem?_set_ne (Ne.symm hji)]

lemma onceInv_init (K : Nat) : OnceInv (onceInit K) := by
  refine ⟨by simp [onceInit], ?_, ?_, ?_, ?_, ?_⟩ <;>
    simp only [onceInit, List.getElem?_replicate]
  · intro a b p q hab ha hb hp hq
    split at ha
    · cases ha
      simp [inCS] at hp
    · exact Option.noConfusion ha
  · intro a p ha hp
    split at ha
    · cases ha
      simp [inCS] at hp
    · exact Option.noConfusion ha
  · constructor
    · intro hfalse
      exact absurd hfalse (by simp)
    · rintro (h0 | ⟨a, ha⟩)
      · exact absurd h0 (by simp)
      · split at ha
        · cases ha
        · exact Option.noConfusion ha
  · intro a ha
    split at ha
    · cases ha
    · exact Option.noConfusion ha
  · intro a p ha hpd
    split at ha
    · cases ha
      rcases hpd with h | h <;> cases h
    · exact Option.noConfusion ha

/-- Mutual exclusion transfers across a step of thread `i` when thread `i`
was already inside the critical section before the step. -/
lemma exclusion_transfer {s : OnceState} {i : Nat} {oldp : Pc} (newp : Pc)
    (hi : i < s.pcs.length)
    (hpc : s.pcs[i]? = some oldp) (hold : inCS oldp)
    (hexcl : ∀ (a b : Nat) (p q : Pc), a ≠ b → s.pcs[a]? = some p →
      s.pcs[b]? = some q → inCS p → inCS q → False) :
    ∀ (a b : Nat) (p q : Pc), a ≠ b → (s.pcs.set i newp)[a]? = some p →
      (s.pcs.set i newp)[b]? = some q → inCS p → inCS q → False := by
  intro a b p q hab ha hb hp hq
  rw [set_getElem? _ _ _ _ hi] at ha hb
  by_cases hai : a = i
  · rw [if_neg (fun hbi : b = i => hab (hai.trans hbi.symm))] at hb
    exact hexcl a b oldp q hab (hai.symm ▸ hpc) hb hold hq
  · rw [if_neg hai] at ha
    by_cases hbi : b = i
    · exact hexcl a b p oldp hab ha (hbi.symm ▸ hpc) hp hold
    · rw [if_neg hbi] at hb
      exact hexcl a b p q hab ha hb hp hq

/-- The lock-is-set property transfers across a step of thread `i` when
thread `i` was already inside the critical section before the step. -/
lemma lockOn_transfer {s : OnceState} {i : Nat} {oldp : Pc} (newp : Pc)
    (hi : i < s.pcs.length)
    (hpc : s.pcs[i]? = some oldp) (hold : inCS oldp)
    (hlock : ∀ (a : Nat) (p : Pc), s.pcs[a]? = some p → inCS p →
      s.lock = true) :
    ∀ (a : Nat) (p : Pc), (s.pcs.set i newp)[a]? = some p → inCS p →
      s.lock = true := by
  intro a p ha hp
  rw [set_getElem? _ _ _ _ hi] at ha
  by_cases hai : a = i
  · exact hlock i oldp hpc hold
  · rw [if_neg hai] at ha
    exact hlock a p ha hp

lemma onceInv_step (s : OnceState) (i : Nat) (h : OnceInv s) :
    OnceInv (onceStep s i) := by
  obtain ⟨h1, h2, h3, h4, h5, h6⟩ := h
  unfold onceStep
  cases hpc : s.pcs[i]? with
  | none => exact ⟨h1, h2, h3, h4, h5, h6⟩
  | some p =>
    have hi : i < s.pcs.length := lt_of_getElem?_some hpc
    have hset : ∀ (v : Pc) (j : Nat),
        (s.pcs.set i v)[j]? = if j = i then some v else s.pcs[j]? :=
      fun v j => set_getElem? s.pcs i v j hi
    cases p with
    | entry =>
      by_cases hl : s.lock = true
      · rw [if_pos hl]
        exact ⟨h1, h2, h3, h4, h5, h6⟩
      · rw [if_neg hl]
        refine ⟨h1, ?_, ?_, ?_, ?_, ?_⟩
        · intro a b p q hab ha hb hp hq
          dsimp only at ha hb
          rw [hset] at ha hb
          by_cases hai : a = i
          · subst hai
            rw [if_neg (fun hbi => hab hbi.symm)] at hb
            exact hl (h3 b q hb hq)
          · rw [if_neg hai] at ha
            by_cases hbi : b = i
            · exact hl (h3 a p ha hp)
            · rw [if_neg hbi] at hb
              exact h2 a b p q hab ha hb hp hq
        · intro a p ha hp
          rfl
        · dsimp only
          constructor
          · intro hst
            rcases h4.mp hst with hc | ⟨a, ha⟩
            · exact Or.inl hc
            · have hai : a ≠ i := by
                intro he
                subst he
                rw [hpc] at ha
                exact Pc.noConfusion (Option.some.inj ha)
              refine Or.inr ⟨a, ?_⟩
              rw [hset, if_neg hai]
              exact ha
          · rintro (hc | ⟨a, ha⟩)
            · exact h4.mpr (Or.inl hc)
            · rw [hset] at ha
              by_cases hai : a = i
              · rw [if_pos hai] at ha
                exact Pc.noConfusion (Option.some.inj ha)
              · rw [if_neg hai] at ha
                exact h4.mpr (Or.inr ⟨a, ha⟩)
        · intro a ha
          dsimp only at ha ⊢
          rw [hset] at ha
          by_cases hai : a = i
          · rw [if_pos hai] at ha
            exact Pc.noConfusion (Option.some.inj ha)
          · rw [if_neg hai] at ha
            exact h5 a ha
        · intro a p ha hpd
          dsimp only at ha ⊢
          rw [hset] at ha
          by_cases hai : a = i
          · rw [if_pos hai] at ha
            cases Option.some.inj ha
            rcases hpd with hx | hx <;> exact Pc.noConfusion hx
          · rw [if_neg hai] at ha
            exact h6 a p ha hpd
    | locked =>
      have hinLocked : inCS Pc.locked := Or.inl rfl
      by_cases hs : s.state = true
      · rw [if_pos hs]
        have hc1 : s.counter = 1 := by
          rcases h4.mp hs with hc | ⟨a, ha⟩
          · exact hc
          · have hai : a ≠ i := by
              intro he
              subst he
              rw [hpc] at ha
              exact Pc.noConfusion (Option.some.inj ha)
            exact (h2 a i Pc.runInit Pc.locked hai ha hpc
              (Or.inr (Or.inl rfl)) hinLocked).elim
        refine ⟨h1, ?_, ?_, ?_, ?_, ?_⟩
        · exact exclusion_transfer Pc.unlock hi hpc hinLocked h2
        · exact lockOn_transfer Pc.unlock hi hpc hinLocked h3
        · exact ⟨fun _ => Or.inl hc1, fun _ => hs⟩
        · intro a ha
          dsimp only at ha ⊢
          rw [hset] at ha
          by_cases hai : a = i
          · rw [if_pos hai] at ha
            exact Pc.noConfusion (Option.some.inj ha)
          · rw [if_neg hai] at ha
            exact (h2 a i Pc.runInit Pc.locked hai ha hpc
              (Or.inr (Or.inl rfl)) hinLocked).elim
        · intro a p ha hpd
          exact hc1
      · rw [if_neg hs]
        have hc0 : s.counter = 0 := by
          have hne : s.counter ≠ 1 := fun hc => hs (h4.mpr (Or.inl hc))
          omega
        refine ⟨h1, ?_, ?_, ?_, ?_, ?_⟩
        · exact exclusion_transfer Pc.runInit hi hpc hinLocked h2
        · exact lockOn_transfer Pc.runInit hi hpc hinLocked h3
        · dsimp only
          refine ⟨fun _ => Or.inr ⟨i, ?_⟩, fun _ => rfl⟩
          rw [hset, if_pos rfl]
        · intro a ha
          exact hc0
        · intro a p ha hpd
          dsimp only at ha ⊢
          rw [hset] at ha
          by_cases hai : a = i
          · rw [if_pos hai] at ha
            cases Option.some.inj ha
            rcases hpd with hx | hx <;> exact Pc.noConfusion hx
          · rw [if_neg hai] at ha
            have := h6 a p ha hpd
            omega
    | runInit =>
      have hinRun : inCS Pc.runInit := Or.inr (Or.inl rfl)
      have hc0 : s.counter = 0 := h5 i hpc
      refine ⟨show s.counter + 1 ≤ 1 by omega, ?_, ?_, ?_, ?_, ?_⟩
      · exact exclusion_transfer Pc.unlock hi hpc hinRun h2
      · exact lockOn_transfer Pc.unlock hi hpc hinRun h3
      · have hst : s.state = true := h4.mpr (Or.inr ⟨i, hpc⟩)
        exact ⟨fun _ => Or.inl (show s.counter + 1 = 1 by omega), fun _ => hst⟩
      · intro a ha
        dsimp only at ha ⊢
        rw [hset] at ha
        by_cases hai : a = i
        · rw [if_pos hai] at ha
          exact Pc.noConfusion (Option.some.inj ha)
        · rw [if_neg hai] at ha
          exact (h2 a i Pc.runInit Pc.runInit hai ha hpc hinRun hinRun).elim
      · intro a p ha hpd
        show s.counter + 1 = 1
        omega
    | unlock =>
      have hinUnlock : inCS Pc.unlock := Or.inr (Or.inr rfl)
      have hc1 : s.counter = 1 := h6 i Pc.unlock hpc (Or.inl rfl)
      refine ⟨h1, ?_, ?_, ?_, ?_, ?_⟩
      · exact exclusion_transfer Pc.done hi hpc hinUnlock h2
      · intro a p ha hp
        dsimp only at ha ⊢
        rw [hset] at ha
        by_cases hai : a = i
        · rw [if_pos hai] at ha
          cases Option.some.inj ha
          rcases hp with hx | hx | hx <;> exact Pc.noConfusion hx
        · rw [if_neg hai] at ha
          exact (h2 a i p Pc.unlock hai ha hpc hp hinUnlock).elim
      · have hst : s.state = true := h4.mpr (Or.inl hc1)
        exact ⟨fun _ => Or.inl hc1, fun _ => hst⟩
      · intro a ha
        dsimp only at ha ⊢
        rw [hset] at ha
        by_cases hai : a = i
        · rw [if_pos hai] at ha
          exact Pc.noConfusion (Option.some.inj ha)
        · rw [if_neg hai] at ha
          exact h5 a ha
      · intro a p ha hpd
        exact hc1
    | done => exact ⟨h1, h2, h3, h4, h5, h6⟩

/-- The invariant holds in every state reachable from an invariant state
under any schedule. -/
lemma onceInv_run (s : OnceState) (sched : List Nat) (h : OnceInv s) :
    OnceInv (onceRun s sched) := by
  induction sched generalizing s with
  | nil => exact h
  | cons i rest ih => exact ih (onceStep s i) (onceInv_step s i h)

/-- A step never changes how many threads participate. -/
lemma onceStep_length (s : OnceState) (i : Nat) :
    (onceStep s i).pcs.length = s.pcs.length := by
  unfold onceStep
  cases hpc : s.pcs[i]? with
  | none => rfl
  | some p =>
    cases p with
    | entry =>
      by_cases hl : s.lock = true
      · rw [if_pos hl]
      · rw [if_neg hl]
        exact List.length_set s.pcs i Pc.locked
    | locked =>
      by_cases hs : s.state = true
      · rw [if_pos hs]
        exact List.length_set s.pcs i Pc.unlock
      · rw [if_neg hs]
        exact List.length_set s.pcs i Pc.runInit
    | runInit => exact List.length_set s.pcs i Pc.unlock
    | unlock => exact List.length_set s.pcs i Pc.done
    | done => rfl

/-- A run never changes how many threads participate. -/
lemma onceRun_length (s : OnceState) (sched : List Nat) :
    (onceRun s sched).pcs.length = s.pcs.length := by
  induction sched generalizing s with
  | nil => rfl
  | cons i rest ih => rw [onceRun, ih, onceStep_length]

/-! ### Claims -/

/-- C1: the claim states that `cond_wait` has reacquired the mutex before
it returns on every platform path.  On the Windows path the code unlocks
the mutex, waits on the semaphore, and returns without ever reacquiring
it: with the mutex initially held and `WaitForSingleObject` returning
`WAIT_OBJECT_0`, `cond_wait` returns status 0 with the mutex still
released. -/
theorem c1_cond_wait_win_leaves_mutex_released :
    cond_wait_win WAIT_OBJECT_0 true = (0, false) := rfl

/-- C2 counterexample: on the POSIX path of `cond_wait_timeout`, a pure
timeout makes `pthread_cond_timedwait` return `ETIMEDOUT`, and the code
returns that status unchanged: the result is the nonzero 110, not the 0
the claim requires on every platform path. -/
theorem c2_counterexample_posix_timeout_nonzero :
    cond_wait_timeout_posix 0 0 100 (fun _ _ => ETIMEDOUT) = 110 ∧
      (110 : Int) ≠ 0 := by
  exact ⟨rfl, by decide⟩

/-- C2 (amended): on the Windows path `cond_wait_timeout` returns 0
exactly when the wait ended by signal (`WAIT_OBJECT_0`) or by timeout
(`WAIT_TIMEOUT`) and -1 for any other wait outcome; on the POSIX path the
status of `pthread_cond_timedwait` at the computed deadline is returned
unchanged, so a pure timeout yields the nonzero `ETIMEDOUT` status rather
than 0. -/
theorem c2_amended_timeout_status :
    (∀ (res : Nat) (m : Bool), (cond_wait_timeout_win res m).1 =
      if res = WAIT_OBJECT_0 ∨ res = WAIT_TIMEOUT then 0 else -1) ∧
    (∀ (sec usec tm : Nat) (osw : Nat → Nat → Int),
      cond_wait_timeout_posix sec usec tm osw =
        osw (timespec_deadline sec usec tm).1 (timespec_deadline sec usec tm).2) ∧
    (∀ sec usec tm : Nat,
      cond_wait_timeout_posix sec usec tm (fun _ _ => ETIMEDOUT) = ETIMEDOUT ∧
        ETIMEDOUT ≠ 0) := by
  refine ⟨fun res m => ?_, fun sec usec tm osw => rfl,
    fun sec usec tm => ⟨rfl, by decide⟩⟩
  unfold cond_wait_timeout_win
  split <;> rfl

/-- C3: for every number `K ≥ 1` of threads racing the `thread_once`
fallback on a fresh once-guard with an initializer that increments a
counter, and every interleaving: once all callers have returned the
counter equals exactly 1, and any caller that has returned did so only
after the initializer had returned (the counter already equals 1 whenever
any thread is at `done`). -/
theorem c3_thread_once_exactly_once (K : Nat) (sched : List Nat)
    (hK : 1 ≤ K) :
    ((∀ p ∈ (onceRun (onceInit K) sched).pcs, p = Pc.done) →
      (onceRun (onceInit K) sched).counter = 1) ∧
    (∀ i : Nat, (onceRun (onceInit K) sched).pcs[i]? = some Pc.done →
      (onceRun (onceInit K) sched).counter = 1) := by
  obtain ⟨h1, h2, h3, h4, h5, h6⟩ := onceInv_run (onceInit K) sched (onceInv_init K)
  have hrec : ∀ i : Nat,
      (onceRun (onceInit K) sched).pcs[i]? = some Pc.done →
      (onceRun (onceInit K) sched).counter = 1 :=
    fun i hdone => h6 i Pc.done hdone (Or.inr rfl)
  refine ⟨?_, hrec⟩
  intro hall
  have hlen : (onceRun (onceInit K) sched).pcs.length = K := by
    rw [onceRun_length]
    simp [onceInit]
  have h0 : 0 < (onceRun (onceInit K) sched).pcs.length := by omega
  have h0e := List.getElem?_eq_getElem h0
  have hmem := List.getElem?_mem h0e
  have hpd := hall _ hmem
  refine hrec 0 ?_
  rw [h0e, hpd]

/-- C3 witness: two threads racing the fallback under a concrete
interleaving in which both finish; the counter ends at exactly 1. -/
theorem c3_witness :
    (onceRun (onceInit 2) [0, 0, 0, 0, 1, 1, 1]).counter = 1 :=
  (c3_thread_once_exactly_once 2 [0, 0, 0, 0, 1, 1, 1] (by decide)).1 (by decide)

/-- C4: in the fallback once-guard path, the initializer executes at most
once under every interleaving; any thread that has acquired the lock and
observes `state` set (the only read of `state` in the algorithm) does so
only once the initializer has already returned; and a competing caller
that finds the lock held spins in place (its step leaves the machine
unchanged, modelling the `Sleep(1)` retry loop) until the lock is free. -/
theorem c4_thread_once_fallback_guard (K : Nat) (sched : List Nat) :
    (onceRun (onceInit K) sched).counter ≤ 1 ∧
    (∀ i : Nat, (onceRun (onceInit K) sched).pcs[i]? = some Pc.locked →
      (onceRun (onceInit K) sched).state = true →
      (onceRun (onceInit K) sched).counter = 1) ∧
    (∀ (s : OnceState) (i : Nat), s.pcs[i]? = some Pc.entry →
      s.lock = true → onceStep s i = s) := by
  obtain ⟨h1, h2, h3, h4, h5, h6⟩ := onceInv_run (onceInit K) sched (onceInv_init K)
  refine ⟨h1, ?_, ?_⟩
  · intro i hloc hst
    rcases h4.mp hst with hc | ⟨a, ha⟩
    · exact hc
    · have hai : a ≠ i := by
        intro he
        rw [he, hloc] at ha
        exact Pc.noConfusion (Option.some.inj ha)
      exact (h2 a i Pc.runInit Pc.locked hai ha hloc
        (Or.inr (Or.inl rfl)) (Or.inl rfl)).elim
  · intro s i hpc hl
    simp [onceStep, hpc, hl]

/-- C4 witness: with two threads and a schedule under which thread 0 runs
the initializer to completion and thread 1 then acquires the lock and
observes `state` set, the counter is already 1; and a thread finding the
lock held spins in place on a concrete state. -/
theorem c4_witness :
    (onceRun (onceInit 2) [0, 0, 0, 0, 1]).counter = 1 ∧
    onceStep ⟨true, false, 0, [Pc.entry, Pc.locked]⟩ 0 =
      ⟨true, false, 0, [Pc.entry, Pc.locked]⟩ := by
  constructor
  · exact (c4_thread_once_fallback_guard 2 [0, 0, 0, 0, 1]).2.1 1
      (by decide) (by decide)
  · exact (c4_thread_once_fallback_guard 0 []).2.2
      ⟨true, false, 0, [Pc.entry, Pc.locked]⟩ 0 (by decide) (by decide)

/-- C5: `thread_cancel` returns -1, touching no OS primitive, on the
Windows path and on the POSIX path built without `HAVE_PTHREAD_CANCEL`,
whatever `pthread_cancel` would have returned. -/
theorem c5_thread_cancel_unsupported (isWin havePthreadCancel : Bool)
    (osPthreadCancel : Int)
    (h : isWin = true ∨ (isWin = false ∧ havePthreadCancel = false)) :
    thread_cancel isWin havePthreadCancel osPthreadCancel = (-1, false) := by
  rcases h with h | ⟨h1, h2⟩
  · simp [thread_cancel, h]
  · simp [thread_cancel, h1, h2]

/-- C5 witness: concrete evaluations on the Windows build and on a POSIX
build lacking `HAVE_PTHREAD_CANCEL`. -/
theorem c5_witness :
    thread_cancel true false 0 = (-1, false) ∧
    thread_cancel false false 7 = (-1, false) :=
  ⟨c5_thread_cancel_unsupported true false 0 (Or.inl rfl),
   c5_thread_cancel_unsupported false false 7 (Or.inr ⟨rfl, rfl⟩)⟩

/-- C6: `thread_alive` on a null handle returns false without invoking
any OS primitive, on both platform paths; on a non-null handle it invokes
the platform's liveness query and reports its answer
(`WaitForSingleObject(th, 0) == WAIT_TIMEOUT` on Windows,
`pthread_kill(th, 0) == 0` on POSIX). -/
theorem c6_thread_alive_null (isWin : Bool) (thread : Nat)
    (osWaitSingle : Nat → Nat) (osKill : Nat → Int) :
    (thread = 0 →
      thread_alive isWin thread osWaitSingle osKill = (false, false)) ∧
    (thread ≠ 0 →
      thread_alive isWin thread osWaitSingle osKill =
        ((if isWin then decide (osWaitSingle thread = WAIT_TIMEOUT)
          else decide (osKill thread = 0)), true)) := by
  refine ⟨fun h => by simp [thread_alive, h], fun h => ?_⟩
  cases isWin with
  | true => simp [thread_alive, h]
  | false => simp [thread_alive, h]

/-- C6 witness: a null handle probes nothing; a non-null handle on the
POSIX path reports the `pthread_kill` answer. -/
theorem c6_witness :
    thread_alive false 0 (fun _ => 0) (fun _ => 0) = (false, false) ∧
    thread_alive false 5 (fun _ => 0) (fun _ => 0) = (true, true) := by
  constructor
  · exact (c6_thread_alive_null false 0 (fun _ => 0) (fun _ => 0)).1 rfl
  · simpa using (c6_thread_alive_null false 5 (fun _ => 0) (fun _ => 0)).2
      (by decide)

/-- C7: `thread_new` on success stores the new handle and returns 0, on
both platform paths; when the OS cannot start the thread it returns -1
(Windows) or the nonzero `pthread_create` status (POSIX) and stores
nothing; and the result depends only on the first (single) OS call, i.e.
the failure is never retried. -/
theorem c7_thread_new_status (osWin : Nat → Option Nat)
    (osPosix : Nat → Except Int Nat) :
    (∀ th : Nat, osWin 0 = some th → thread_new_win osWin = (0, some th)) ∧
    (osWin 0 = none → thread_new_win osWin = (-1, none)) ∧
    (∀ th : Nat, osPosix 0 = .ok th → thread_new_posix osPosix = (0, some th)) ∧
    (∀ e : Int, osPosix 0 = .error e → e ≠ 0 →
      thread_new_posix osPosix = (e, none) ∧ (thread_new_posix osPosix).1 ≠ 0) ∧
    (∀ f g : Nat → Option Nat, f 0 = g 0 →
      thread_new_win f = thread_new_win g) ∧
    (∀ f g : Nat → Except Int Nat, f 0 = g 0 →
      thread_new_posix f = thread_new_posix g) := by
  refine ⟨fun th h => by simp [thread_new_win, h],
    fun h => by simp [thread_new_win, h],
    fun th h => by simp [thread_new_posix, h],
    fun e h he => by simp [thread_new_posix, h, he],
    fun f g h => by simp [thread_new_win, h],
    fun f g h => by simp [thread_new_posix, h]⟩

/-- C7 witness: a concrete successful Windows creation and a concrete
POSIX resource-exhaustion failure (`EAGAIN` = 11). -/
theorem c7_witness :
    thread_new_win (fun _ => some 42) = (0, some 42) ∧
    thread_new_posix (fun _ => .error 11) = (11, none) :=
  ⟨(c7_thread_new_status (fun _ => some 42) (fun _ => .ok 0)).1 42 rfl,
   ((c7_thread_new_status (fun _ => some 42) (fun _ => .error 11)).2.2.2.1
      11 rfl (by decide)).1⟩

/-- C8: `cond_signal` fails (returns the nonzero -1) exactly when the
underlying wake primitive could not be released (`ReleaseSemaphore`
failing, on the semaphore-emulated path); on success it returns 0 having
added exactly one permit to the semaphore; on the POSIX path the
`pthread_cond_signal` status is passed through uninterpreted. -/
theorem c8_cond_signal_status (cond : CondWin) (osCondSignal : Int) :
    cond_signal_win true cond = (0, ⟨cond.sem + 1⟩) ∧
    cond_signal_win false cond = (-1, cond) ∧
    (∀ ok : Bool, (cond_signal_win ok cond).1 ≠ 0 ↔ ok = false) ∧
    cond_signal_posix osCondSignal = osCondSignal := by
  refine ⟨rfl, rfl, fun ok => ?_, rfl⟩
  cases ok <;> simp [cond_signal_win]

/-- C9: the absolute deadline computed on the POSIX path of
`cond_wait_timeout` equals the start time plus exactly `timeout_ms`
milliseconds, as exact integer arithmetic on seconds and nanoseconds, and
its nanosecond field is normalized into [0, 10^9). -/
theorem c9_timespec_deadline_exact (sec usec tm : Nat)
    (_h : usec < 1000000) :
    (timespec_deadline sec usec tm).1 * 1000000000 +
        (timespec_deadline sec usec tm).2 =
      (sec * 1000000000 + usec * 1000) + tm * 1000000 ∧
    (timespec_deadline sec usec tm).2 < 1000000000 := by
  unfold timespec_deadline
  dsimp only
  constructor <;> omega

/-- C9 witness: a start time of 5s + 999999us plus 1500ms lands exactly
on 7s + 499999000ns. -/
theorem c9_witness :
    (timespec_deadline 5 999999 1500).1 * 1000000000 +
        (timespec_deadline 5 999999 1500).2 =
      (5 * 1000000000 + 999999 * 1000) + 1500 * 1000000 ∧
    (timespec_deadline 5 999999 1500).2 < 1000000000 :=
  c9_timespec_deadline_exact 5 999999 1500 (by decide)

/-- C10: on the Windows path of `thread_new`, `*thread` is written if and
only if the call returns 0; when `CreateThread` fails the function
returns -1 and writes nothing. -/
theorem c10_thread_new_win_frame (osWin : Nat → Option Nat) :
    ((thread_new_win osWin).1 = 0 ↔ (thread_new_win osWin).2.isSome) ∧
    (osWin 0 = none → thread_new_win osWin = (-1, none)) := by
  cases h : osWin 0 with
  | none => simp [thread_new_win, h]
  | some th => simp [thread_new_win, h]

/-- C10 witness: a failing `CreateThread` leaves `*thread` unwritten and
yields -1. -/
theorem c10_witness :
    thread_new_win (fun _ => none) = (-1, none) :=
  (c10_thread_new_win_frame (fun _ => none)).2 rfl

end ThreadC
